import Mathlib

/-!
Verification development for the tryrack-api shop discovery engine and
review verification classifier.

The definitions below are shallow embeddings of the Python source:
* `haversine_distance`, `filter_by_proximity` — `app/services/shop.py`
  (the proximity-filtering loop of `ShopService.get_shop_items`);
* `groupByBoutique`, `round_robin_select` — the grouping and round-robin
  selection loops of `ShopService.get_shop_items`;
* `check_user_verification`, `getUserInfo` — `app/services/review.py`
  (`ReviewService._check_user_verification`, `ReviewService._get_user_info`).

Python machine details modelled explicitly: `limit` is an `Int` (the code
compares `len(selected_items) >= limit` where `limit` may be any integer),
and the final `selected_items[:limit]` slice is modelled by `pythonTake`,
which follows Python slice semantics for negative bounds.  Fallible
collaborator calls (the try-on DB lookup, the WorkOS identity fetch) are
modelled as `Except` values handed to the function, mirroring where the
source wraps them in `try/except`.
-/

/-! ## Round-robin selection (`ShopService.get_shop_items`, grouping + selection loops) -/

/-- One step of the Python dict-based grouping
`boutique_groups[boutique_id].append(item)` (creating the key at the end of
the insertion order when absent), on an insertion-ordered association list. -/
def addToGroups {α : Type} (gs : List (Nat × List α)) (b : Nat) (it : α) :
    List (Nat × List α) :=
  match gs with
  | [] => [(b, [it])]
  | (k, its) :: rest =>
    if k = b then (k, its ++ [it]) :: rest
    else (k, its) :: addToGroups rest b it

/-- The grouping loop: `for item in all_items: boutique_groups[item.boutique_id].append(item)`,
with the dict modelled as an insertion-ordered association list. -/
def groupByBoutique {α : Type} (key : α → Nat) (items : List α) :
    List (Nat × List α) :=
  items.foldl (fun gs it => addToGroups gs (key it) it) []

/-- `max(len(items) for items in boutique_groups.values()) if boutique_groups else 0`. -/
def maxRounds {α : Type} (groups : List (Nat × List α)) : Nat :=
  groups.foldl (fun m p => max m p.2.length) 0

/-- The inner loop of the round-robin selection: one pass over the boutiques
for a fixed `round_num`, appending `boutique_items[round_num]` when that index
is valid and short-circuiting once `len(selected_items) >= limit`. -/
def rrInner {α : Type} (limit : Int) (r : Nat) :
    List (Nat × List α) → List α → List α
  | [], acc => acc
  | (_, items) :: rest, acc =>
    if limit ≤ (acc.length : Int) then acc
    else
      match items.get? r with
      | some it => rrInner limit r rest (acc ++ [it])
      | none => rrInner limit r rest acc

/-- The outer loop `for round_num in range(max_rounds)` with its own
short-circuit check; `roundsLeft` counts the remaining rounds and `r` is the
current `round_num`. -/
def rrOuter {α : Type} (groups : List (Nat × List α)) (limit : Int) :
    Nat → Nat → List α → List α
  | 0, _, acc => acc
  | n + 1, r, acc =>
    if limit ≤ (acc.length : Int) then acc
    else rrOuter groups limit n (r + 1) (rrInner limit r groups acc)

/-- Python slice `xs[:n]` for an integer `n` (negative `n` counts from the
end; the result is clamped to the available elements). -/
def pythonTake {α : Type} (n : Int) (xs : List α) : List α :=
  if 0 ≤ n then xs.take n.toNat else xs.take ((xs.length : Int) + n).toNat

/-- The round-robin selection of `ShopService.get_shop_items`: the two nested
loops over `range(max_rounds)` and the boutique keys, followed by the
defensive `selected_items[:limit]` truncation. -/
def round_robin_select {α : Type} (groups : List (Nat × List α)) (limit : Int) :
    List α :=
  pythonTake limit (rrOuter groups limit (maxRounds groups) 0 [])

/-- A catalog item as the round-robin loops see it: only its boutique id is
inspected; `idx` is the position used to tell items apart in examples. -/
structure CItem where
  boutique_id : Nat
  idx : Nat
deriving DecidableEq

/-! ## Specification views of the round-robin loops (proved equal below) -/

/-- The items appended during one round `r` when no limit intervenes: for each
boutique in order, its element at index `r` when present. -/
def emit {α : Type} (groups : List (Nat × List α)) (r : Nat) : List α :=
  groups.filterMap (fun p => p.2.get? r)

/-- The concatenation of `emit` over rounds `start, start+1, …, start+n-1`. -/
def emitRange {α : Type} (groups : List (Nat × List α)) (start : Nat) :
    Nat → List α
  | 0 => []
  | n + 1 => emit groups start ++ emitRange groups (start + 1) n

/-! ## Distance calculator and proximity filter (`app/services/shop.py`) -/

/-- `EARTH_RADIUS_MILES = 3958.8`. -/
noncomputable def EARTH_RADIUS_MILES : ℝ := 3958.8

/-- `math.radians`: degrees to radians. -/
noncomputable def radians (d : ℝ) : ℝ := d * Real.pi / 180

/-- `haversine_distance(lat1, lon1, lat2, lon2)` from `app/services/shop.py`,
over the idealised reals: converts to radians, applies
`a = sin²(Δlat/2) + cos(lat1)·cos(lat2)·sin²(Δlon/2)` and returns
`EARTH_RADIUS_MILES * 2 * asin(sqrt(a))`. -/
noncomputable def haversine_distance (lat1 lon1 lat2 lon2 : ℝ) : ℝ :=
  EARTH_RADIUS_MILES *
    (2 * Real.arcsin (Real.sqrt (
      Real.sin ((radians lat2 - radians lat1) / 2) ^ 2 +
      Real.cos (radians lat1) * Real.cos (radians lat2) *
        Real.sin ((radians lon2 - radians lon1) / 2) ^ 2)))

/-- `BoutiqueProfile` as the proximity loop reads it: optional coordinates. -/
structure BoutiqueProfileM where
  latitude : Option ℝ
  longitude : Option ℝ

/-- A boutique with its optionally present profile. -/
structure BoutiqueM where
  boutique_profile : Option BoutiqueProfileM

/-- A catalog item as the proximity loop reads it. -/
structure CatalogItemM where
  boutique_id : Nat
  boutique : Option BoutiqueM

/-- The coordinate resolution of the loop body:
`boutique_profile = item.boutique.boutique_profile if item.boutique else None`,
then `continue` when the profile is missing or `latitude`/`longitude` is
`None`. Returns the coordinates exactly when none of the skips fire. -/
def resolveLocation (it : CatalogItemM) : Option (ℝ × ℝ) :=
  match it.boutique with
  | none => none
  | some b =>
    match b.boutique_profile with
    | none => none
    | some p =>
      match p.latitude, p.longitude with
      | some la, some lo => some (la, lo)
      | some _, none => none
      | none, _ => none

/-- The proximity-filtering loop of `get_shop_items` (run only when both user
coordinates are present): items without a resolvable boutique location are
skipped; located items are kept iff `distance <= radius_miles`. -/
noncomputable def filter_by_proximity (ulat ulon radius : ℝ)
    (items : List CatalogItemM) : List CatalogItemM :=
  items.filter (fun it =>
    match resolveLocation it with
    | none => false
    | some (la, lo) => decide (haversine_distance ulat ulon la lo ≤ radius))

/-! ## Review verification classifier (`app/services/review.py`) -/

/-- One entry of a try-on session's `selected_items` JSON list (the loop only
reads `item_type` and `product_id`). -/
structure TryOnSelectedItem where
  item_type : String
  product_id : String
deriving DecidableEq

/-- A `VirtualTryOn` row as `_check_user_verification` reads it. -/
structure VirtualTryOnM where
  selected_items : List TryOnSelectedItem
deriving DecidableEq

/-- The reviewer facts `_check_user_verification` reads off the WorkOS user
dict: `email_verified`, `first_name`, `last_name`. -/
structure UserInfoM where
  email_verified : Bool
  first_name : Option String
  last_name : Option String
deriving DecidableEq

/-- Python truthiness `bool(x)` for an optional string (`None` and `""` are
falsy). -/
def strTruthy : Option String → Bool
  | none => false
  | some s => !s.isEmpty

/-- The matching test of the try-on scan:
`item.get("item_type") == "boutique" and item.get("product_id") == item_id`. -/
def sessionItemMatches (itemId : String) (it : TryOnSelectedItem) : Bool :=
  it.item_type == "boutique" && it.product_id == itemId

/-- `user and user.get("email_verified")` for the optional user dict. -/
def userEmailVerified : Option UserInfoM → Bool
  | none => false
  | some u => u.email_verified

/-- The inner `for item in session.selected_items` loop: returns `true` when
some entry matches the product and the user's email is verified (the code then
returns the try-on tier); otherwise the scan continues. -/
def scanSelectedItems (itemId : String) (verified : Bool) :
    List TryOnSelectedItem → Bool
  | [] => false
  | it :: rest =>
    if sessionItemMatches itemId it && verified then true
    else scanSelectedItems itemId verified rest

/-- The outer `for session in sessions` loop of the try-on tier. -/
def scanSessions (itemId : String) (verified : Bool) :
    List VirtualTryOnM → Bool
  | [] => false
  | s :: rest =>
    if scanSelectedItems itemId verified s.selected_items then true
    else scanSessions itemId verified rest

/-- Derived fact: the user has a try-on session containing this product
(ignoring email verification) — the `has_tried_on_product` fact of the spec. -/
def hasTriedOnProduct (sessions : List VirtualTryOnM) (itemId : String) : Bool :=
  sessions.any (fun s => s.selected_items.any (sessionItemMatches itemId))

/-- `ReviewService._check_user_verification(db, user_id, item_type, item_id, user)`.
The try-on DB lookup is passed in as an `Except` value; the source wraps it in
`try/except Exception` and logs, so a lookup error only skips Tier 1.  Tier 0
(purchase) is commented out in the source.  The result is the source's
`(is_verified, verification_type, verification_level)` triple; the `Except`
in the result type records whether any collaborator failure escapes. -/
def check_user_verification (itemType : String) (itemId : String)
    (sessionsResult : Except String (List VirtualTryOnM))
    (user : Option UserInfoM) :
    Except String (Bool × Option String × Nat) :=
  let tier1 : Bool :=
    if itemType == "product" then
      match sessionsResult with
      | Except.ok sessions => scanSessions itemId (userEmailVerified user) sessions
      | Except.error _ => false
    else false
  if tier1 then Except.ok (true, some "try_on", 1)
  else
    match user with
    | some u =>
      if u.email_verified && strTruthy u.first_name && strTruthy u.last_name then
        Except.ok (true, some "email_profile", 2)
      else if u.email_verified then Except.ok (true, some "email", 3)
      else Except.ok (false, none, 0)
    | none => Except.ok (false, none, 0)

/-- `ReviewService._get_user_info` (cache aside): fetches the WorkOS user and
returns the built dict; on any exception it logs a warning and returns `None`. -/
def getUserInfo (fetchResult : Except String UserInfoM) : Option UserInfoM :=
  match fetchResult with
  | Except.ok u => some u
  | Except.error _ => none

/-! ## Concrete instances used by examples and witnesses -/

/-- Boutiques A (id 1, five items), B (id 2, one item), C (id 3, three items)
in that insertion order — the grouping of §8.5 of the spec. -/
def demoGroups : List (Nat × List CItem) :=
  [(1, [⟨1, 0⟩, ⟨1, 1⟩, ⟨1, 2⟩, ⟨1, 3⟩, ⟨1, 4⟩]),
   (2, [⟨2, 0⟩]),
   (3, [⟨3, 0⟩, ⟨3, 1⟩, ⟨3, 2⟩])]

/-- A flat upstream item list: boutique 1 twice, boutique 2 twice, boutique 3
once, interleaved. -/
def demoItems : List CItem :=
  [⟨1, 0⟩, ⟨2, 0⟩, ⟨1, 1⟩, ⟨3, 0⟩, ⟨2, 1⟩]

/-- An item whose boutique profile resolves to coordinates (0, 0). -/
def itLocated : CatalogItemM :=
  ⟨1, some ⟨some ⟨some 0, some 0⟩⟩⟩

/-- An item whose boutique profile has `latitude = None`. -/
def itUnlocated : CatalogItemM :=
  ⟨2, some ⟨some ⟨none, some 0⟩⟩⟩

/-- One try-on session whose `selected_items` contains product "p1". -/
def demoSessions : List VirtualTryOnM := [⟨[⟨"boutique", "p1"⟩]⟩]

/-- A verified user with a complete profile. -/
def demoUserFull : UserInfoM := ⟨true, some "Ann", some "Lee"⟩

/-- A verified user with no last name. -/
def demoUserNoLast : UserInfoM := ⟨true, some "Ann", none⟩

/-- An unverified user with a complete profile. -/
def demoUserUnverified : UserInfoM := ⟨false, some "Ann", some "Lee"⟩

/-! ## The round-robin loops compute a truncation of the full interleaving -/

theorem rrInner_eq {α : Type} (limit : Int) (r : Nat) :
    ∀ (groups : List (Nat × List α)) (acc : List α),
      rrInner limit r groups acc
        = acc ++ (emit groups r).take (limit - (acc.length : Int)).toNat := by
  intro groups
  induction groups with
  | nil => intro acc; simp [rrInner, emit]
  | cons p rest ih =>
    intro acc
    obtain ⟨k, items⟩ := p
    by_cases h : limit ≤ (acc.length : Int)
    · have ht : (limit - (acc.length : Int)).toNat = 0 := by omega
      simp [rrInner, h, ht]
    · cases hg : items.get? r with
      | some it =>
        have ht : (limit - (acc.length : Int)).toNat
            = (limit - ((acc.length : Int) + 1)).toNat + 1 := by omega
        simp only [rrInner, if_neg h, hg, emit, List.filterMap_cons]
        rw [ih (acc ++ [it]), ht]
        simp [emit, List.append_assoc]
      | none =>
        simp only [rrInner, if_neg h, hg, emit, List.filterMap_cons]
        exact ih acc

theorem rrOuter_eq {α : Type} (groups : List (Nat × List α)) (limit : Int) :
    ∀ (roundsLeft r : Nat) (acc : List α),
      rrOuter groups limit roundsLeft r acc
        = acc ++ (emitRange groups r roundsLeft).take (limit - (acc.length : Int)).toNat := by
  intro roundsLeft
  induction roundsLeft with
  | zero => intro r acc; simp [rrOuter, emitRange]
  | succ n ih =>
    intro r acc
    by_cases h : limit ≤ (acc.length : Int)
    · have ht : (limit - (acc.length : Int)).toNat = 0 := by omega
      simp [rrOuter, h, ht]
    · simp only [rrOuter, if_neg h]
      rw [rrInner_eq, ih, emitRange, List.append_assoc, List.take_append_eq_append_take]
      have hL : (acc ++ (emit groups r).take (limit - (acc.length : Int)).toNat).length
          = acc.length + min (limit - (acc.length : Int)).toNat (emit groups r).length := by
        simp [List.length_take]
      rw [hL]
      have harg : (limit - ((acc.length + min (limit - (acc.length : Int)).toNat
            (emit groups r).length : Nat) : Int)).toNat
          = (limit - (acc.length : Int)).toNat - (emit groups r).length := by
        omega
      rw [harg]

theorem rr_select_eq {α : Type} (groups : List (Nat × List α)) (limit : Int) :
    round_robin_select groups limit
      = (emitRange groups 0 (maxRounds groups)).take limit.toNat := by
  unfold round_robin_select
  rw [rrOuter_eq]
  simp only [List.length_nil, Nat.cast_zero, Int.sub_zero, List.nil_append]
  by_cases h : 0 ≤ limit
  · simp [pythonTake, h, List.take_take]
  · have ht : limit.toNat = 0 := by omega
    simp [pythonTake, h, ht]

/-! ## Counting lemmas for the interleaving -/

theorem sum_map_add_nat {β : Type} (l : List β) (f g : β → Nat) :
    (l.map (fun x => f x + g x)).sum = (l.map f).sum + (l.map g).sum := by
  induction l with
  | nil => simp
  | cons a t ih => simp only [List.map_cons, List.sum_cons, ih]; omega

theorem sum_map_congr_nat {β : Type} (l : List β) (f g : β → Nat)
    (h : ∀ x ∈ l, f x = g x) : (l.map f).sum = (l.map g).sum := by
  induction l with
  | nil => rfl
  | cons a t ih =>
    simp only [List.map_cons, List.sum_cons]
    rw [h a (List.mem_cons_self a t), ih (fun x hx => h x (List.mem_cons_of_mem a hx))]

theorem sum_map_zero_nat {β : Type} (l : List β) :
    (l.map (fun _ => (0 : Nat))).sum = 0 := by
  induction l with
  | nil => rfl
  | cons a t ih => simp only [List.map_cons, List.sum_cons, ih]

theorem length_emit {α : Type} (groups : List (Nat × List α)) (r : Nat) :
    (emit groups r).length
      = (groups.map (fun p => if r < p.2.length then 1 else 0)).sum := by
  induction groups with
  | nil => simp [emit]
  | cons p rest ih =>
    cases hg : p.2.get? r with
    | some it =>
      have hr : r < p.2.length := by
        rcases List.get?_eq_some.mp hg with ⟨h, _⟩
        exact h
      simp only [emit, List.filterMap_cons, hg, List.map_cons, List.sum_cons,
        List.length_cons, if_pos hr]
      simp only [emit] at ih
      omega
    | none =>
      have hr : ¬ r < p.2.length := by
        have := List.get?_eq_none.mp hg
        omega
      simp only [emit, List.filterMap_cons, hg, List.map_cons, List.sum_cons,
        if_neg hr]
      simp only [emit] at ih
      omega

theorem length_emitRange {α : Type} (groups : List (Nat × List α)) :
    ∀ (n start : Nat),
      (emitRange groups start n).length
        = (groups.map
            (fun p => min p.2.length (start + n) - min p.2.length start)).sum := by
  intro n
  induction n with
  | zero =>
    intro start
    rw [show (emitRange groups start 0) = [] from rfl]
    rw [sum_map_congr_nat groups _ (fun _ => 0)
      (by intro p _; show min p.2.length (start + 0) - min p.2.length start = 0; omega)]
    simp [sum_map_zero_nat]
  | succ n ih =>
    intro start
    rw [show emitRange groups start (n + 1)
        = emit groups start ++ emitRange groups (start + 1) n from rfl]
    rw [List.length_append, length_emit, ih (start + 1), ← sum_map_add_nat]
    apply sum_map_congr_nat
    intro p _
    split <;> omega

theorem init_le_foldl_max {α : Type} (l : List (Nat × List α)) :
    ∀ init, init ≤ l.foldl (fun m p => max m p.2.length) init := by
  induction l with
  | nil => intro init; simp
  | cons p t ih =>
    intro init
    simp only [List.foldl_cons]
    exact le_trans (le_max_left _ _) (ih _)

theorem length_le_foldl_max {α : Type} (l : List (Nat × List α)) :
    ∀ p ∈ l, ∀ init, p.2.length ≤ l.foldl (fun m q => max m q.2.length) init := by
  induction l with
  | nil => intro p hp; cases hp
  | cons q t ih =>
    intro p hp init
    simp only [List.foldl_cons]
    rcases List.mem_cons.mp hp with h | h
    · subst h
      exact le_trans (le_max_right _ _) (init_le_foldl_max t _)
    · exact ih p h _

theorem length_le_maxRounds {α : Type} {groups : List (Nat × List α)}
    {p : Nat × List α} (hp : p ∈ groups) : p.2.length ≤ maxRounds groups :=
  length_le_foldl_max groups p hp 0

theorem length_emitAll {α : Type} (groups : List (Nat × List α)) :
    (emitRange groups 0 (maxRounds groups)).length
      = (groups.map (fun p => p.2.length)).sum := by
  rw [length_emitRange]
  apply sum_map_congr_nat
  intro p hp
  have h1 : p.2.length ≤ maxRounds groups := length_le_maxRounds hp
  omega

theorem sum_lens_addToGroups {α : Type} (gs : List (Nat × List α)) (b : Nat)
    (it : α) :
    ((addToGroups gs b it).map (fun p => p.2.length)).sum
      = (gs.map (fun p => p.2.length)).sum + 1 := by
  induction gs with
  | nil => simp [addToGroups]
  | cons q t ih =>
    obtain ⟨k, its⟩ := q
    by_cases h : k = b
    · simp only [addToGroups, if_pos h, List.map_cons, List.sum_cons]
      simp
      omega
    · simp only [addToGroups, if_neg h, List.map_cons, List.sum_cons, ih]
      omega

theorem sum_lens_groupBy {α : Type} (key : α → Nat) (items : List α) :
    ((groupByBoutique key items).map (fun p => p.2.length)).sum = items.length := by
  suffices h : ∀ gs : List (Nat × List α),
      ((items.foldl (fun gs it => addToGroups gs (key it) it) gs).map
          (fun p => p.2.length)).sum
        = (gs.map (fun p => p.2.length)).sum + items.length by
    simpa [groupByBoutique] using h []
  induction items with
  | nil => intro gs; simp
  | cons a t ih =>
    intro gs
    simp only [List.foldl_cons]
    rw [ih, sum_lens_addToGroups]
    simp only [List.length_cons]
    omega

/-! ## Grouping invariants: key consistency and distinct keys -/

theorem addToGroups_key_inv {α : Type} (key : α → Nat) :
    ∀ (gs : List (Nat × List α)) (b : Nat) (it : α),
      (∀ p ∈ gs, ∀ x ∈ p.2, key x = p.1) → key it = b →
      ∀ p ∈ addToGroups gs b it, ∀ x ∈ p.2, key x = p.1 := by
  intro gs
  induction gs with
  | nil =>
    intro b it _ hkey p hp x hx
    simp only [addToGroups, List.mem_singleton] at hp
    subst hp
    simp only [List.mem_singleton] at hx
    subst hx
    exact hkey
  | cons q t ih =>
    intro b it hinv hkey p hp x hx
    obtain ⟨k, its⟩ := q
    by_cases h : k = b
    · simp only [addToGroups, if_pos h] at hp
      rcases List.mem_cons.mp hp with h1 | h1
      · subst h1
        rcases List.mem_append.mp hx with h2 | h2
        · exact hinv (k, its) (List.mem_cons_self _ _) x h2
        · simp only [List.mem_singleton] at h2
          subst h2
          rw [hkey, h]
      · exact hinv p (List.mem_cons_of_mem _ h1) x hx
    · simp only [addToGroups, if_neg h] at hp
      rcases List.mem_cons.mp hp with h1 | h1
      · subst h1
        exact hinv (k, its) (List.mem_cons_self _ _) x hx
      · exact ih b it (fun p hp x hx => hinv p (List.mem_cons_of_mem _ hp) x hx)
          hkey p h1 x hx

theorem groupBy_key_inv {α : Type} (key : α → Nat) (items : List α) :
    ∀ p ∈ groupByBoutique key items, ∀ x ∈ p.2, key x = p.1 := by
  suffices h : ∀ gs, (∀ p ∈ gs, ∀ x ∈ p.2, key x = p.1) →
      ∀ p ∈ items.foldl (fun gs it => addToGroups gs (key it) it) gs,
        ∀ x ∈ p.2, key x = p.1 by
    exact h [] (by intro p hp; cases hp)
  induction items with
  | nil => intro gs hinv; simpa using hinv
  | cons a t ih =>
    intro gs hinv
    simp only [List.foldl_cons]
    exact ih _ (addToGroups_key_inv key gs (key a) a hinv rfl)

theorem addToGroups_keys {α : Type} :
    ∀ (gs : List (Nat × List α)) (b : Nat) (it : α),
      (addToGroups gs b it).map Prod.fst
        = if b ∈ gs.map Prod.fst then gs.map Prod.fst
          else gs.map Prod.fst ++ [b] := by
  intro gs
  induction gs with
  | nil => intro b it; simp [addToGroups]
  | cons q t ih =>
    intro b it
    obtain ⟨k, its⟩ := q
    by_cases h : k = b
    · subst h
      simp [addToGroups]
    · have hbk : ¬ b = k := fun he => h he.symm
      simp only [addToGroups, if_neg h, List.map_cons, ih, List.mem_cons]
      by_cases hb : b ∈ t.map Prod.fst
      · simp [hb, hbk]
      · simp [hb, hbk]

theorem addToGroups_keys_nodup {α : Type} (gs : List (Nat × List α)) (b : Nat)
    (it : α) (h : (gs.map Prod.fst).Nodup) :
    ((addToGroups gs b it).map Prod.fst).Nodup := by
  rw [addToGroups_keys]
  by_cases hb : b ∈ gs.map Prod.fst
  · simpa [hb] using h
  · simp only [if_neg hb]
    rw [List.nodup_append]
    refine ⟨h, List.nodup_singleton b, ?_⟩
    intro x hx hxb
    simp only [List.mem_singleton] at hxb
    subst hxb
    exact hb hx

theorem groupBy_keys_nodup {α : Type} (key : α → Nat) (items : List α) :
    ((groupByBoutique key items).map Prod.fst).Nodup := by
  suffices h : ∀ gs, (gs.map Prod.fst).Nodup →
      ((items.foldl (fun gs it => addToGroups gs (key it) it) gs).map
        Prod.fst).Nodup by
    exact h [] (by simp)
  induction items with
  | nil => intro gs h; simpa using h
  | cons a t ih =>
    intro gs h
    simp only [List.foldl_cons]
    exact ih _ (addToGroups_keys_nodup gs (key a) a h)

/-! ## The interleaving restricted to one boutique is that boutique's bucket -/

theorem filter_emit {α : Type} (key : α → Nat) (k : Nat) (bucket : List α) :
    ∀ gs : List (Nat × List α),
      (∀ p ∈ gs, ∀ x ∈ p.2, key x = p.1) →
      (gs.map Prod.fst).Nodup →
      (k, bucket) ∈ gs →
      ∀ r, (emit gs r).filter (fun x => key x == k)
        = (match bucket.get? r with
           | some x => [x]
           | none => []) := by
  intro gs
  induction gs with
  | nil => intro _ _ hmem; cases hmem
  | cons q t ih =>
    intro hinv hnd hmem r
    obtain ⟨k1, its⟩ := q
    simp only [List.map_cons, List.nodup_cons] at hnd
    rcases List.mem_cons.mp hmem with h1 | h1
    · cases h1
      have hrest : ∀ y ∈ emit t r, ¬ ((key y == k) = true) := by
        intro y hy
        rcases List.mem_filterMap.mp hy with ⟨p, hp, hpy⟩
        have hky : key y = p.1 :=
          hinv p (List.mem_cons_of_mem _ hp) y (List.get?_mem hpy)
        have hne : p.1 ≠ k := by
          intro he
          exact hnd.1 (he ▸ (List.mem_map.mpr ⟨p, hp, rfl⟩))
        simp [beq_iff_eq, hky, hne]
      cases hg : bucket.get? r with
      | some x =>
        have hx : key x = k :=
          hinv (k, bucket) (List.mem_cons_self _ _) x (List.get?_mem hg)
        simp only [emit, List.filterMap_cons, hg]
        rw [List.filter_cons_of_pos (by simp [beq_iff_eq, hx])]
        rw [show List.filterMap (fun p : Nat × List α => p.2.get? r) t
            = emit t r from rfl]
        rw [List.filter_eq_nil_iff.mpr hrest]
      | none =>
        simp only [emit, List.filterMap_cons, hg]
        exact List.filter_eq_nil_iff.mpr hrest
    · have hk1k : k1 ≠ k := by
        intro he
        exact hnd.1 (he ▸ List.mem_map.mpr ⟨(k, bucket), h1, rfl⟩)
      have hrec := ih (fun p hp => hinv p (List.mem_cons_of_mem _ hp)) hnd.2 h1 r
      cases hg : its.get? r with
      | some y =>
        have hy : key y = k1 :=
          hinv (k1, its) (List.mem_cons_self _ _) y (List.get?_mem hg)
        simp only [emit, List.filterMap_cons, hg]
        rw [List.filter_cons_of_neg (by simp [beq_iff_eq, hy, hk1k])]
        exact hrec
      | none =>
        simp only [emit, List.filterMap_cons, hg]
        exact hrec

theorem filter_emitRange {α : Type} (key : α → Nat) (k : Nat) (bucket : List α)
    (gs : List (Nat × List α))
    (hinv : ∀ p ∈ gs, ∀ x ∈ p.2, key x = p.1)
    (hnd : (gs.map Prod.fst).Nodup)
    (hmem : (k, bucket) ∈ gs) :
    ∀ (n start : Nat),
      (emitRange gs start n).filter (fun x => key x == k)
        = (bucket.drop start).take n := by
  intro n
  induction n with
  | zero => intro start; simp [emitRange]
  | succ n ih =>
    intro start
    rw [show emitRange gs start (n + 1)
        = emit gs start ++ emitRange gs (start + 1) n from rfl]
    rw [List.filter_append, filter_emit key k bucket gs hinv hnd hmem start,
      ih (start + 1)]
    cases hg : bucket.get? start with
    | some x =>
      rcases List.get?_eq_some.mp hg with ⟨hlt, hget⟩
      have hget2 : bucket[start] = x := by simpa using hget
      have hdrop : bucket.drop start = x :: bucket.drop (start + 1) := by
        rw [List.drop_eq_getElem_cons hlt, hget2]
      rw [hdrop, List.take_succ_cons]
      rfl
    | none =>
      have hge : bucket.length ≤ start := List.get?_eq_none.mp hg
      rw [List.drop_eq_nil_of_le hge, List.drop_eq_nil_of_le (by omega)]
      simp

theorem take_isPre {α : Type} (n : Nat) (l : List α) : l.take n <+: l :=
  ⟨l.drop n, List.take_append_drop n l⟩

theorem isPre_filter {α : Type} (p : α → Bool) {l1 l2 : List α}
    (h : l1 <+: l2) : l1.filter p <+: l2.filter p := by
  obtain ⟨t, rfl⟩ := h
  exact ⟨t.filter p, (List.filter_append _ _).symm⟩

/-! ## Review verification classifier: scan characterisation and claims -/

theorem scanSelectedItems_eq (itemId : String) (v : Bool) :
    ∀ l : List TryOnSelectedItem,
      scanSelectedItems itemId v l = (v && l.any (sessionItemMatches itemId)) := by
  intro l
  induction l with
  | nil => simp [scanSelectedItems]
  | cons it rest ih =>
    simp only [scanSelectedItems, List.any_cons, ih]
    cases hm : sessionItemMatches itemId it <;> cases v <;> simp

theorem scanSessions_eq (itemId : String) (v : Bool) :
    ∀ l : List VirtualTryOnM,
      scanSessions itemId v l = (v && hasTriedOnProduct l itemId) := by
  intro l
  induction l with
  | nil => simp [scanSessions, hasTriedOnProduct]
  | cons s rest ih =>
    simp only [scanSessions, scanSelectedItems_eq, ih, hasTriedOnProduct,
      List.any_cons]
    cases hm : s.selected_items.any (sessionItemMatches itemId) <;> cases v <;> simp

/-- C5: on a product review where the reviewer has tried on the exact product,
has a verified email, and has both first and last name, the classifier returns
`(True, "try_on", 1)`: the try-on tier is checked before the email-profile
tier, and the first match wins. -/
theorem c5_verification_tier_ordering
    (itemId : String) (sessions : List VirtualTryOnM) (u : UserInfoM)
    (htry : hasTriedOnProduct sessions itemId = true)
    (hver : u.email_verified = true)
    (_hfirst : strTruthy u.first_name = true)
    (_hlast : strTruthy u.last_name = true) :
    check_user_verification "product" itemId (Except.ok sessions) (some u)
      = Except.ok (true, some "try_on", 1) := by
  simp [check_user_verification, scanSessions_eq, userEmailVerified, htry, hver]

/-- C5 witness: the concrete facts of spec §8.8 — verified email, complete
profile, and a try-on of product "p1" — classify as `(True, "try_on", 1)`. -/
theorem c5_verification_tier_ordering_witness :
    check_user_verification "product" "p1" (Except.ok demoSessions)
        (some demoUserFull)
      = Except.ok (true, some "try_on", 1) :=
  c5_verification_tier_ordering "p1" demoSessions demoUserFull
    (by decide) (by decide) (by decide) (by decide)

/-- C6: for every input with item_type "boutique" the classifier never
returns verification_type "try_on" (the try-on tier is product-specific);
in particular a boutique review with a tried-on product, verified email and
incomplete profile yields `(True, "email", 3)`. -/
theorem c6_boutique_never_try_on :
    (∀ (itemId : String) (sr : Except String (List VirtualTryOnM))
        (user : Option UserInfoM) (b : Bool) (n : Nat),
      check_user_verification "boutique" itemId sr user
        ≠ Except.ok (b, some "try_on", n))
    ∧ check_user_verification "boutique" "p1" (Except.ok demoSessions)
        (some demoUserNoLast) = Except.ok (true, some "email", 3) := by
  constructor
  · intro itemId sr user b n
    have hb : ("boutique" == "product") = false := by decide
    simp only [check_user_verification, hb, Bool.false_eq_true, if_false]
    cases user with
    | none => simp
    | some u =>
      obtain ⟨ev, fn, ln⟩ := u
      cases ev <;> cases hf : strTruthy fn <;> cases hl : strTruthy ln <;>
        simp [hf, hl]
  · rfl

/-- C6 witness: the general conjunct applied at the concrete boutique review
of spec §8.9. -/
theorem c6_boutique_never_try_on_witness :
    check_user_verification "boutique" "p1" (Except.ok demoSessions)
        (some demoUserNoLast)
      ≠ Except.ok (true, some "try_on", 1) :=
  c6_boutique_never_try_on.1 "p1" (Except.ok demoSessions)
    (some demoUserNoLast) true 1

/-- C7: whenever the reviewer's email is not verified (including a missing
user record), the classifier returns exactly `(False, None, 0)` regardless of
item type, try-on history or profile completeness. -/
theorem c7_unverified_fallthrough
    (itemType itemId : String) (sr : Except String (List VirtualTryOnM))
    (user : Option UserInfoM)
    (hver : userEmailVerified user = false) :
    check_user_verification itemType itemId sr user
      = Except.ok (false, none, 0) := by
  have htier1 : (if itemType == "product" then
      match sr with
      | Except.ok sessions => scanSessions itemId (userEmailVerified user) sessions
      | Except.error _ => false
    else false) = false := by
    cases h : (itemType == "product")
    · simp
    · cases sr with
      | ok sessions => simp [scanSessions_eq, hver]
      | error e => simp
  simp only [check_user_verification, htier1, Bool.false_eq_true, if_false]
  cases user with
  | none => rfl
  | some u =>
    have hu : u.email_verified = false := by
      simpa [userEmailVerified] using hver
    simp [hu]

/-- C7 witness: an unverified user with complete profile and a tried-on
product still classifies as `(False, None, 0)`. -/
theorem c7_unverified_fallthrough_witness :
    check_user_verification "product" "p1" (Except.ok demoSessions)
        (some demoUserUnverified)
      = Except.ok (false, none, 0) :=
  c7_unverified_fallthrough "product" "p1" (Except.ok demoSessions)
    (some demoUserUnverified) (by decide)

/-- C8 counterexample: when the try-on DB lookup fails, the classifier does
NOT propagate the failure — at a concrete failing lookup it returns the
email-profile tier instead of the error, because the source wraps the lookup
in `try/except Exception` and only logs. -/
theorem c8_counterexample :
    check_user_verification "product" "p1" (Except.error "db down")
        (some demoUserFull)
      = Except.ok (true, some "email_profile", 2)
    ∧ check_user_verification "product" "p1" (Except.error "db down")
        (some demoUserFull)
      ≠ Except.error "db down" := by
  constructor
  · rfl
  · intro h
    cases h

/-- C8 amended: lookup failures are swallowed inside the classifier rather
than propagated — a failed identity fetch is logged in `_get_user_info` and
mapped to `None`, a failed try-on lookup is logged in
`_check_user_verification` and behaves exactly as an empty session list
(tier 1 skipped, lower tiers still evaluated), and the classifier always
returns a normal result, never an error. -/
theorem c8_lookup_failures_swallowed :
    (∀ e : String, getUserInfo (Except.error e) = none)
    ∧ (∀ (itemType itemId e : String) (user : Option UserInfoM),
        check_user_verification itemType itemId (Except.error e) user
          = check_user_verification itemType itemId (Except.ok []) user)
    ∧ (∀ (itemType itemId : String)
        (sr : Except String (List VirtualTryOnM)) (user : Option UserInfoM),
        ∃ r, check_user_verification itemType itemId sr user = Except.ok r) := by
  refine ⟨fun e => rfl, fun itemType itemId e user => ?_, ?_⟩
  · simp only [check_user_verification, scanSessions]
  · intro itemType itemId sr user
    simp only [check_user_verification]
    generalize (if itemType == "product" then
        match sr with
        | Except.ok sessions =>
          scanSessions itemId (userEmailVerified user) sessions
        | Except.error _ => false
      else false) = t1
    cases t1 with
    | true => exact ⟨(true, some "try_on", 1), rfl⟩
    | false =>
      cases user with
      | none => exact ⟨(false, none, 0), rfl⟩
      | some u =>
        obtain ⟨ev, fn, ln⟩ := u
        cases ev <;> cases hf : strTruthy fn <;> cases hl : strTruthy ln <;>
          simp [hf, hl]

/-! ## Distance calculator and proximity filter: claims -/

theorem radians_ninety : radians 90 = Real.pi / 2 := by
  unfold radians
  ring

/-- C9 amended: `haversine_distance(A, A) = 0` for every point A (the "if"
direction of the claim); the "only if" direction is refuted by the
counterexample below. -/
theorem c9_haversine_identity (lat lon : ℝ) :
    haversine_distance lat lon lat lon = 0 := by
  simp [haversine_distance, sub_self]

/-- C9 counterexample: the distance is zero at two distinct coordinate pairs
— both points at latitude 90 with different longitudes give
`haversine_distance = 0` because `cos(π/2) = 0` kills the longitude term, so
"zero iff identical inputs" is false. -/
theorem c9_counterexample :
    haversine_distance 90 0 90 10 = 0
    ∧ ((90 : ℝ), (0 : ℝ)) ≠ ((90 : ℝ), (10 : ℝ)) := by
  constructor
  · unfold haversine_distance
    rw [radians_ninety]
    simp [Real.cos_pi_div_two, sub_self]
  · intro h
    have h2 := congrArg Prod.snd h
    norm_num at h2

/-- C3: when a user location is supplied, an item whose boutique location
resolves is kept by the proximity filter iff its haversine distance to the
user is `≤ radius_miles`: distance exactly `radius_miles` is included, any
strictly greater distance is excluded. -/
theorem c3_proximity_boundary (ulat ulon radius : ℝ)
    (items : List CatalogItemM) (it : CatalogItemM) (la lo : ℝ)
    (hmem : it ∈ items) (hloc : resolveLocation it = some (la, lo)) :
    (it ∈ filter_by_proximity ulat ulon radius items
      ↔ haversine_distance ulat ulon la lo ≤ radius) := by
  simp only [filter_by_proximity, List.mem_filter, hloc, hmem, true_and,
    decide_eq_true_eq]

/-- C3 witness: an item co-located with the user is within any radius; the
boundary equivalence instantiated at a concrete located item. -/
theorem c3_proximity_boundary_witness :
    itLocated ∈ filter_by_proximity 0 0 100 [itLocated]
      ↔ haversine_distance 0 0 0 0 ≤ 100 :=
  c3_proximity_boundary 0 0 100 [itLocated] itLocated 0 0
    (List.mem_singleton.mpr rfl) rfl

/-- C4: when a user location is supplied, an item whose boutique location is
unresolvable (missing boutique, missing profile, or a `None` latitude or
longitude) is excluded from the proximity-filtered results for every radius. -/
theorem c4_unlocated_excluded (ulat ulon radius : ℝ)
    (items : List CatalogItemM) (it : CatalogItemM)
    (hloc : resolveLocation it = none) :
    it ∉ filter_by_proximity ulat ulon radius items := by
  intro hmem
  simp [filter_by_proximity, List.mem_filter, hloc] at hmem

/-- C4 witness: an item whose boutique profile has `latitude = None` is not
returned even with a huge radius. -/
theorem c4_unlocated_excluded_witness :
    itUnlocated ∉ filter_by_proximity 0 0 1000000 [itUnlocated] :=
  c4_unlocated_excluded 0 0 1000000 [itUnlocated] itUnlocated rfl

/-! ## Round-robin claims -/

theorem length_emit_zero {α : Type} :
    ∀ groups : List (Nat × List α), (∀ p ∈ groups, p.2 ≠ []) →
      (emit groups 0).length = groups.length := by
  intro groups
  induction groups with
  | nil => intro _; rfl
  | cons p rest ih =>
    intro hne
    have hp : p.2 ≠ [] := hne p (List.mem_cons_self _ _)
    cases hq : p.2.get? 0 with
    | none =>
      exfalso
      have h1 := List.get?_eq_none.mp hq
      have h2 := List.length_pos.mpr hp
      omega
    | some a =>
      simp only [emit, List.filterMap_cons, hq, List.length_cons]
      have h3 := ih (fun q hqq => hne q (List.mem_cons_of_mem _ hqq))
      simp only [emit] at h3
      omega

/-- C2: the round-robin selection returns exactly
`min(limit, total grouped item count)` items (with a non-positive limit
clamped to zero); in particular `limit <= 0` and an empty grouping both yield
an empty result. -/
theorem c2_round_robin_length (α : Type) (key : α → Nat) (items : List α)
    (limit : Int) :
    (round_robin_select (groupByBoutique key items) limit).length
      = min limit.toNat items.length
    ∧ (limit ≤ 0 → round_robin_select (groupByBoutique key items) limit = [])
    ∧ round_robin_select ([] : List (Nat × List α)) limit = [] := by
  have hlen : (round_robin_select (groupByBoutique key items) limit).length
      = min limit.toNat items.length := by
    rw [rr_select_eq, List.length_take, length_emitAll, sum_lens_groupBy]
  refine ⟨hlen, ?_, ?_⟩
  · intro hle
    have h0 : limit.toNat = 0 := by omega
    have hz : (round_robin_select (groupByBoutique key items) limit).length = 0 := by
      rw [hlen, h0]
      omega
    exact List.length_eq_zero.mp hz
  · rw [rr_select_eq]
    simp [maxRounds, emitRange]

/-- C2 witness: a negative limit yields the empty selection on a concrete
grouping. -/
theorem c2_round_robin_length_witness :
    round_robin_select (groupByBoutique CItem.boutique_id demoItems) (-1) = [] :=
  (c2_round_robin_length CItem CItem.boutique_id demoItems (-1)).2.1 (by decide)

/-- C1: strict round-robin fairness — when every present boutique's bucket is
non-empty, the first `#boutiques` entries of the selection are exactly the
buckets' first items in boutique order (truncated at the limit), so no
boutique's 2nd item ever precedes any present boutique's 1st item; and on the
concrete grouping A(5)/B(1)/C(3) with limit 3 the result is exactly
[A0, B0, C0]. -/
theorem c1_round_robin_fairness :
    (∀ (α : Type) (groups : List (Nat × List α)) (limit : Int),
      (∀ p ∈ groups, p.2 ≠ []) →
      (round_robin_select groups limit).take groups.length
        = (groups.filterMap (fun p => p.2.head?)).take limit.toNat)
    ∧ round_robin_select demoGroups 3 = [⟨1, 0⟩, ⟨2, 0⟩, ⟨3, 0⟩] := by
  constructor
  · intro α groups limit hne
    by_cases hg : groups = []
    · subst hg
      simp
    · have hR : ∃ R, maxRounds groups = R + 1 := by
        obtain ⟨p, rest, rfl⟩ := List.exists_cons_of_ne_nil hg
        have h1 : 1 ≤ p.2.length :=
          List.length_pos.mpr (hne p (List.mem_cons_self _ _))
        have h2 : p.2.length ≤ maxRounds (p :: rest) :=
          length_le_maxRounds (List.mem_cons_self _ _)
        exact ⟨maxRounds (p :: rest) - 1, by omega⟩
      obtain ⟨R, hR⟩ := hR
      have hhead : emit groups 0 = groups.filterMap (fun p => p.2.head?) := by
        unfold emit
        congr 1
        funext p
        exact List.get?_zero p.2
      have hlen0 : (emit groups 0).length = groups.length :=
        length_emit_zero groups hne
      rw [rr_select_eq, hR]
      rw [show emitRange groups 0 (R + 1)
          = emit groups 0 ++ emitRange groups 1 R from rfl]
      rw [List.take_take, List.take_append_eq_append_take]
      have hz : min groups.length limit.toNat - (emit groups 0).length = 0 := by
        rw [hlen0]
        omega
      rw [hz, List.take_zero, List.append_nil, hhead]
      have hfl : (groups.filterMap (fun p => p.2.head?)).length = groups.length := by
        rw [← hhead]
        exact hlen0
      rw [← List.take_take]
      exact List.take_of_length_le (by rw [List.length_take, hfl]; omega)
  · decide

/-- C1 witness: the general fairness equation instantiated on the concrete
grouping with limit 2. -/
theorem c1_round_robin_fairness_witness :
    (round_robin_select demoGroups 2).take demoGroups.length
      = (demoGroups.filterMap (fun p => p.2.head?)).take (Int.toNat 2) :=
  c1_round_robin_fairness.1 CItem demoGroups 2 (by decide)

/-- C10: for every boutique present in the grouping (with its bucket) and
every limit, the items of that boutique occurring in the round-robin output
form an initial segment of that boutique's bucket — same order, no item
skipped or duplicated. -/
theorem c10_boutique_output_initial_segment
    (α : Type) (key : α → Nat) (items : List α) (limit : Int)
    (k : Nat) (bucket : List α)
    (hmem : (k, bucket) ∈ groupByBoutique key items) :
    (round_robin_select (groupByBoutique key items) limit).filter
        (fun x => key x == k)
      <+: bucket := by
  have hinv := groupBy_key_inv key items
  have hnd := groupBy_keys_nodup key items
  have h1 : round_robin_select (groupByBoutique key items) limit
      <+: emitRange (groupByBoutique key items) 0
            (maxRounds (groupByBoutique key items)) := by
    rw [rr_select_eq]
    exact take_isPre _ _
  have h2 := isPre_filter (fun x => key x == k) h1
  rw [filter_emitRange key k bucket _ hinv hnd hmem
    (maxRounds (groupByBoutique key items)) 0] at h2
  rw [List.drop_zero] at h2
  have hR : bucket.length ≤ maxRounds (groupByBoutique key items) :=
    length_le_maxRounds hmem
  rw [List.take_of_length_le hR] at h2
  exact h2

/-- C10 witness: boutique 1's items inside the concrete selection form an
initial segment of its bucket. -/
theorem c10_boutique_output_initial_segment_witness :
    (round_robin_select (groupByBoutique CItem.boutique_id demoItems) 3).filter
        (fun x => CItem.boutique_id x == 1)
      <+: [⟨1, 0⟩, ⟨1, 1⟩] :=
  c10_boutique_output_initial_segment CItem CItem.boutique_id demoItems 3 1
    [⟨1, 0⟩, ⟨1, 1⟩] (by decide)
